import Mathlib

/-!
Verification of the Picross `Board` class (the four-bit variant of
`src/unnamed/part_000`, whose line numbers the claims cite).

Each cell is one byte of a `Uint8Array`:
  bit 0 = true value (filled), bit 1 = marked, bit 2 = revealed,
  bit 3 = guessed value (filled).

JavaScript semantics embedded faithfully:
  - `cells[i]` at an out-of-range index reads as `undefined`, which the
    bit-mask comparisons coerce to 0; writes out of range are silent no-ops.
  - a typed-array store truncates to a byte, modelled by `% 256`.
  - row/col arguments are JS numbers, modelled as `Int` (out-of-range and
    negative indices are part of the claims).
-/

namespace Picross

/-- The `Board` class state: dimensions, the packed cell bytes, the two hint
tables and the two cached longest-hint lengths. -/
structure Board where
  rows : Int
  cols : Int
  cells : List Nat
  RowHints : List (List Nat)
  ColHints : List (List Nat)
  longestRowHint : Nat
  longestColHint : Nat
deriving DecidableEq

/-- Read `cells[i]` with JS typed-array semantics: out of range gives
`undefined`, which coerces to 0 under the bit masks the class applies. -/
def getAt (cells : List Nat) (i : Int) : Nat :=
  if 0 ≤ i ∧ i < (cells.length : Int) then cells.getD i.toNat 0 else 0

/-- Write `cells[i] = v` with JS typed-array semantics: a store at an
out-of-range index is a silent no-op, and a store truncates to a byte. -/
def setAt (cells : List Nat) (i : Int) (v : Nat) : List Nat :=
  if 0 ≤ i ∧ i < (cells.length : Int) then cells.set i.toNat (v % 256) else cells

/-- `Board.index`: `row * this.cols + col` (no bounds check in the source). -/
def Board.index (b : Board) (row col : Int) : Int :=
  row * b.cols + col

/-- `Board.isFilled`: `(cells[index] & 0b001) !== 0`. -/
def Board.isFilled (b : Board) (row col : Int) : Bool :=
  getAt b.cells (b.index row col) &&& 0b001 != 0

/-- `Board.isMarked`: `(cells[index] & 0b010) !== 0`. -/
def Board.isMarked (b : Board) (row col : Int) : Bool :=
  getAt b.cells (b.index row col) &&& 0b010 != 0

/-- `Board.isRevealed`: `(cells[index] & 0b100) !== 0`. -/
def Board.isRevealed (b : Board) (row col : Int) : Bool :=
  getAt b.cells (b.index row col) &&& 0b100 != 0

/-- `Board.isGuessedFilled`: `(cells[index] & 0b1000) !== 0`. -/
def Board.isGuessedFilled (b : Board) (row col : Int) : Bool :=
  getAt b.cells (b.index row col) &&& 0b1000 != 0

/-- `Board.fillCell`: `cells[i] = (cells[i] & 0b110) | (filled ? 1 : 0)`. -/
def Board.fillCell (b : Board) (row col : Int) (filled : Bool) : Board :=
  let i := b.index row col
  let v := getAt b.cells i
  { b with cells := setAt b.cells i ((v &&& 0b110) ||| (if filled then 1 else 0)) }

/-- `Board.markCell`: `cells[i] = marked ? cells[i] | 0b010 : cells[i] & 0b101`. -/
def Board.markCell (b : Board) (row col : Int) (marked : Bool) : Board :=
  let i := b.index row col
  let v := getAt b.cells i
  { b with cells := setAt b.cells i (if marked then v ||| 0b010 else v &&& 0b101) }

/-- `Board.revealCell`: `cells[i] = revealed ? cells[i] | 0b100 : cells[i] & 0b011`. -/
def Board.revealCell (b : Board) (row col : Int) (revealed : Bool) : Board :=
  let i := b.index row col
  let v := getAt b.cells i
  { b with cells := setAt b.cells i (if revealed then v ||| 0b100 else v &&& 0b011) }

/-- `Board.guessCell`: sets bit 3 (`| 0b1000` / `& 0b0111`) and then calls
`revealCell(row, col, true)`. -/
def Board.guessCell (b : Board) (row col : Int) (filled : Bool) : Board :=
  let i := b.index row col
  let v := getAt b.cells i
  let b1 : Board :=
    { b with cells := setAt b.cells i (if filled then v ||| 0b1000 else v &&& 0b0111) }
  b1.revealCell row col true

/-- One step of the run-length scan of `calculateHints`: on a filled cell the
current counter is incremented; on an empty cell a positive counter is pushed
onto the hint list and reset.  The source repeats this code once for the row
counter and once for the column counter; both copies are this function. -/
def hintStep (st : Nat × List Nat) (filled : Bool) : Nat × List Nat :=
  if filled then (st.1 + 1, st.2)
  else if st.1 > 0 then (0, st.2 ++ [st.1]) else st

/-- The end-of-line flush of `calculateHints`: push the remaining counter if
it is positive. -/
def flushHint (st : Nat × List Nat) : List Nat :=
  if st.1 > 0 then st.2 ++ [st.1] else st.2

/-- The inner loop of `calculateHints` over one row: each cell advances the
row state and the state of its own column (`currentColHints[c]`/`ColHints[c]`).
In the source the column-state list always has exactly `cols` entries, one per
cell of the row; the `[]` fallback is unreachable there. -/
def processRow : List Bool → Nat × List Nat → List (Nat × List Nat) →
    (Nat × List Nat) × List (Nat × List Nat)
  | [], rowSt, colSts => (rowSt, colSts)
  | f :: fs, rowSt, [] => ((processRow fs (hintStep rowSt f) []).1, [])
  | f :: fs, rowSt, colSt :: colSts =>
      let rest := processRow fs (hintStep rowSt f) colSts
      (rest.1, hintStep colSt f :: rest.2)

/-- The outer loop of `calculateHints` over the rows: each row starts with a
fresh row counter (`currentRowHint = 0`) and empty row hint list, is scanned by
`processRow`, and is flushed at its end; the column states thread through. -/
def processRows : List (List Bool) → List (Nat × List Nat) →
    List (List Nat) × List (Nat × List Nat)
  | [], colSts => ([], colSts)
  | row :: rest, colSts =>
      let pr := processRow row (0, []) colSts
      let prs := processRows rest pr.2
      (flushHint pr.1 :: prs.1, prs.2)

/-- The running maximum of hint-list lengths (`if length > longest` in the
source, applied in loop order). -/
def longestLen (hs : List (List Nat)) : Nat :=
  hs.foldl (fun m h => if h.length > m then h.length else m) 0

/-- `Board.calculateHints`: resets the hint tables, scans the grid of
`isFilled` values in row-major order maintaining one row counter and one
counter per column, flushes row counters at end of row and column counters
after the pass, and recomputes the two longest-hint lengths. -/
def Board.calculateHints (b : Board) : Board :=
  let grid := (List.range b.rows.toNat).map
    (fun (r : Nat) => (List.range b.cols.toNat).map (fun (c : Nat) => b.isFilled (r : Int) (c : Int)))
  let res := processRows grid (List.replicate b.cols.toNat (0, []))
  let rowHints := res.1
  let colHints := res.2.map flushHint
  { b with RowHints := rowHints, ColHints := colHints,
           longestRowHint := longestLen rowHints,
           longestColHint := longestLen colHints }

/-- The `Board` constructor: stores the dimensions and allocates
`new Uint8Array(rows * cols)` (all zero).  There is no dimension validation in
the source; the only failure is the `RangeError` a negative typed-array length
raises, i.e. exactly when `rows * cols < 0`.  The field initializers leave the
hint tables empty and the longest lengths 0. -/
def construct (rows cols : Int) : Option Board :=
  if rows * cols < 0 then none
  else some { rows := rows, cols := cols,
              cells := List.replicate (rows * cols).toNat 0,
              RowHints := [], ColHints := [],
              longestRowHint := 0, longestColHint := 0 }

/-- `Board.getRowHints`: `this.RowHints[row]`, `undefined` out of range. -/
def Board.getRowHints (b : Board) (row : Int) : Option (List Nat) :=
  if 0 ≤ row ∧ row < (b.RowHints.length : Int)
  then some (b.RowHints.getD row.toNat []) else none

/-- `Board.getColHints`: `this.ColHints[col]`, `undefined` out of range. -/
def Board.getColHints (b : Board) (col : Int) : Option (List Nat) :=
  if 0 ≤ col ∧ col < (b.ColHints.length : Int)
  then some (b.ColHints.getD col.toNat []) else none

/-- `Board.getLongestRowHintLength`. -/
def Board.getLongestRowHintLength (b : Board) : Nat := b.longestRowHint

/-- `Board.getLongestColHintLength`. -/
def Board.getLongestColHintLength (b : Board) : Nat := b.longestColHint

/-- The number of cells of row `r` whose true value is filled (columns
`0 ≤ c < cols`). -/
def filledInRow (b : Board) (r : Int) : Nat :=
  ((List.range b.cols.toNat).filter (fun (c : Nat) => b.isFilled r (c : Int))).length

/-- The number of cells of column `c` whose true value is filled (rows
`0 ≤ r < rows`). -/
def filledInCol (b : Board) (c : Int) : Nat :=
  ((List.range b.rows.toNat).filter (fun (r : Nat) => b.isFilled (r : Int) c)).length

/-- One public operation of the `Board` API, for reachability statements. -/
inductive Op where
  | fill (row col : Int) (filled : Bool)
  | mark (row col : Int) (marked : Bool)
  | reveal (row col : Int) (revealed : Bool)
  | guess (row col : Int) (filled : Bool)
  | hints
deriving DecidableEq

/-- Apply one operation to a board. -/
def applyOp (b : Board) : Op → Board
  | Op.fill row col f => b.fillCell row col f
  | Op.mark row col m => b.markCell row col m
  | Op.reveal row col v => b.revealCell row col v
  | Op.guess row col f => b.guessCell row col f
  | Op.hints => b.calculateHints

/-- The operation's coordinates are in range for a `rows × cols` board
(`calculateHints` takes no coordinates). -/
def Op.inRange (rows cols : Int) : Op → Prop
  | Op.fill row col _ => 0 ≤ row ∧ row < rows ∧ 0 ≤ col ∧ col < cols
  | Op.mark row col _ => 0 ≤ row ∧ row < rows ∧ 0 ≤ col ∧ col < cols
  | Op.reveal row col _ => 0 ≤ row ∧ row < rows ∧ 0 ≤ col ∧ col < cols
  | Op.guess row col _ => 0 ≤ row ∧ row < rows ∧ 0 ≤ col ∧ col < cols
  | Op.hints => True

/-! Helper lemmas about the cell store and the bit masks. -/

theorem setAt_length (l : List Nat) (i : Int) (v : Nat) :
    (setAt l i v).length = l.length := by
  unfold setAt; split <;> simp

theorem getAt_oob {l : List Nat} {i : Int} (h : ¬(0 ≤ i ∧ i < (l.length : Int))) :
    getAt l i = 0 := by
  unfold getAt; rw [if_neg h]

theorem setAt_oob {l : List Nat} {i : Int} (v : Nat)
    (h : ¬(0 ≤ i ∧ i < (l.length : Int))) : setAt l i v = l := by
  unfold setAt; rw [if_neg h]

theorem getAt_setAt_self {l : List Nat} {i : Int} (v : Nat)
    (h : 0 ≤ i ∧ i < (l.length : Int)) : getAt (setAt l i v) i = v % 256 := by
  have hn : i.toNat < l.length := by omega
  unfold getAt setAt
  rw [if_pos h, if_pos (by simpa using h)]
  simp [List.getElem?_set_self, hn]

theorem getAt_setAt_ne {l : List Nat} {i j : Int} (v : Nat) (hne : j ≠ i) :
    getAt (setAt l i v) j = getAt l j := by
  unfold setAt
  split
  · next hi =>
    unfold getAt
    rw [List.length_set]
    split
    · next hj =>
      have hjn : j.toNat < l.length := by omega
      have : i.toNat ≠ j.toNat := by omega
      simp [List.getElem?_set_ne this, hjn]
    · rfl
  · rfl

theorem getAt_replicate_zero (n : Nat) (i : Int) :
    getAt (List.replicate n 0) i = 0 := by
  unfold getAt
  split
  · next h =>
    have : i.toNat < n := by simp at h; omega
    simp
  · rfl

theorem bne_and_two_pow (v k : Nat) : (v &&& 2 ^ k != 0) = v.testBit k := by
  rw [Nat.and_two_pow]
  cases h : v.testBit k <;> simp [h, Nat.pow_eq_zero]

theorem isFilled_eq_testBit (b : Board) (row col : Int) :
    b.isFilled row col = (getAt b.cells (b.index row col)).testBit 0 := by
  have : (0b001 : Nat) = 2 ^ 0 := rfl
  rw [Board.isFilled, this, bne_and_two_pow]

theorem isMarked_eq_testBit (b : Board) (row col : Int) :
    b.isMarked row col = (getAt b.cells (b.index row col)).testBit 1 := by
  have : (0b010 : Nat) = 2 ^ 1 := rfl
  rw [Board.isMarked, this, bne_and_two_pow]

theorem isRevealed_eq_testBit (b : Board) (row col : Int) :
    b.isRevealed row col = (getAt b.cells (b.index row col)).testBit 2 := by
  have : (0b100 : Nat) = 2 ^ 2 := rfl
  rw [Board.isRevealed, this, bne_and_two_pow]

theorem isGuessedFilled_eq_testBit (b : Board) (row col : Int) :
    b.isGuessedFilled row col = (getAt b.cells (b.index row col)).testBit 3 := by
  have : (0b1000 : Nat) = 2 ^ 3 := rfl
  rw [Board.isGuessedFilled, this, bne_and_two_pow]

theorem testBit_mod_byte (v : Nat) {k : Nat} (h : k < 8) :
    (v % 256).testBit k = v.testBit k := by
  have h256 : (256 : Nat) = 2 ^ 8 := rfl
  rw [h256, Nat.testBit_mod_two_pow]
  simp [h]

theorem index_inBounds {b : Board} {row col : Int}
    (hlen : b.cells.length = (b.rows * b.cols).toNat)
    (h0r : 0 ≤ row) (hrr : row < b.rows) (h0c : 0 ≤ col) (hcc : col < b.cols) :
    0 ≤ b.index row col ∧ b.index row col < (b.cells.length : Int) := by
  have hcols : 0 < b.cols := lt_of_le_of_lt h0c hcc
  have h1 : 0 ≤ b.index row col :=
    add_nonneg (mul_nonneg h0r hcols.le) h0c
  have h2 : b.index row col < b.rows * b.cols := by
    have step : b.index row col < (row + 1) * b.cols := by
      unfold Board.index; nlinarith
    have : (row + 1) * b.cols ≤ b.rows * b.cols :=
      mul_le_mul_of_nonneg_right (by omega) hcols.le
    omega
  refine ⟨h1, ?_⟩
  rw [hlen]
  omega

theorem fillCell_cells (b : Board) (row col : Int) (f : Bool) :
    (b.fillCell row col f).cells =
      setAt b.cells (b.index row col)
        ((getAt b.cells (b.index row col) &&& 0b110) ||| (if f then 1 else 0)) := rfl

theorem markCell_cells (b : Board) (row col : Int) (m : Bool) :
    (b.markCell row col m).cells =
      setAt b.cells (b.index row col)
        (if m then getAt b.cells (b.index row col) ||| 0b010
         else getAt b.cells (b.index row col) &&& 0b101) := rfl

theorem revealCell_cells (b : Board) (row col : Int) (rv : Bool) :
    (b.revealCell row col rv).cells =
      setAt b.cells (b.index row col)
        (if rv then getAt b.cells (b.index row col) ||| 0b100
         else getAt b.cells (b.index row col) &&& 0b011) := rfl

theorem index_fillCell (b : Board) (row col r c : Int) (f : Bool) :
    (b.fillCell row col f).index r c = b.index r c := rfl

theorem index_markCell (b : Board) (row col r c : Int) (m : Bool) :
    (b.markCell row col m).index r c = b.index r c := rfl

theorem index_revealCell (b : Board) (row col r c : Int) (rv : Bool) :
    (b.revealCell row col rv).index r c = b.index r c := rfl

theorem index_guessCell (b : Board) (row col r c : Int) (f : Bool) :
    (b.guessCell row col f).index r c = b.index r c := rfl

theorem guessCell_cells (b : Board) (row col : Int) (f : Bool) :
    (b.guessCell row col f).cells =
      setAt
        (setAt b.cells (b.index row col)
          (if f then getAt b.cells (b.index row col) ||| 0b1000
           else getAt b.cells (b.index row col) &&& 0b0111))
        (b.index row col)
        (getAt
          (setAt b.cells (b.index row col)
            (if f then getAt b.cells (b.index row col) ||| 0b1000
             else getAt b.cells (b.index row col) &&& 0b0111))
          (b.index row col) ||| 0b100) := rfl

/-- C7: after `revealCell(r,c,false)` on an in-range cell, `isRevealed` and
`isGuessedFilled` are both false (the mask `0b011` clears bits 2 and 3), while
`isMarked` and `isFilled` are unchanged. -/
theorem C7_revealCell_false_clears_guess (b : Board) (row col : Int)
    (hlen : b.cells.length = (b.rows * b.cols).toNat)
    (h0r : 0 ≤ row) (hrr : row < b.rows) (h0c : 0 ≤ col) (hcc : col < b.cols) :
    (b.revealCell row col false).isRevealed row col = false ∧
    (b.revealCell row col false).isGuessedFilled row col = false ∧
    (b.revealCell row col false).isMarked row col = b.isMarked row col ∧
    (b.revealCell row col false).isFilled row col = b.isFilled row col := by
  have hin := index_inBounds hlen h0r hrr h0c hcc
  have hcell : getAt (b.revealCell row col false).cells
      ((b.revealCell row col false).index row col)
      = (getAt b.cells (b.index row col) &&& 0b011) % 256 := by
    rw [index_revealCell, revealCell_cells]
    rw [if_neg (by simp)]
    exact getAt_setAt_self _ hin
  have h2 : (0b011 : Nat).testBit 2 = false := by decide
  have h3 : (0b011 : Nat).testBit 3 = false := by decide
  have h1 : (0b011 : Nat).testBit 1 = true := by decide
  have h0 : (0b011 : Nat).testBit 0 = true := by decide
  refine ⟨?_, ?_, ?_, ?_⟩
  · rw [isRevealed_eq_testBit, hcell, testBit_mod_byte _ (by norm_num),
      Nat.testBit_and, h2, Bool.and_false]
  · rw [isGuessedFilled_eq_testBit, hcell, testBit_mod_byte _ (by norm_num),
      Nat.testBit_and, h3, Bool.and_false]
  · rw [isMarked_eq_testBit, isMarked_eq_testBit, hcell,
      testBit_mod_byte _ (by norm_num), Nat.testBit_and, h1, Bool.and_true]
  · rw [isFilled_eq_testBit, isFilled_eq_testBit, hcell,
      testBit_mod_byte _ (by norm_num), Nat.testBit_and, h0, Bool.and_true]

/-- C7 witness: on a 1×1 board whose cell was guessed filled, `revealCell`
with `false` clears both `revealed` and `guessedFilled` and keeps the rest. -/
theorem C7_witness :
    ((Board.mk 1 1 [0b1111] [] [] 0 0).revealCell 0 0 false).isRevealed 0 0 = false ∧
    ((Board.mk 1 1 [0b1111] [] [] 0 0).revealCell 0 0 false).isGuessedFilled 0 0 = false ∧
    ((Board.mk 1 1 [0b1111] [] [] 0 0).revealCell 0 0 false).isMarked 0 0 =
      (Board.mk 1 1 [0b1111] [] [] 0 0).isMarked 0 0 ∧
    ((Board.mk 1 1 [0b1111] [] [] 0 0).revealCell 0 0 false).isFilled 0 0 =
      (Board.mk 1 1 [0b1111] [] [] 0 0).isFilled 0 0 :=
  C7_revealCell_false_clears_guess (Board.mk 1 1 [0b1111] [] [] 0 0) 0 0
    (by decide) (by decide) (by decide) (by decide) (by decide)

/-- C6: `guessCell(r,c,f)` on an in-range cell stores `f` in the guessed bit
and then unconditionally sets the revealed bit, so afterwards `isRevealed` is
true and `isGuessedFilled` is `f`, whatever the prior state. -/
theorem C6_guessCell_reveals (b : Board) (row col : Int) (f : Bool)
    (hlen : b.cells.length = (b.rows * b.cols).toNat)
    (h0r : 0 ≤ row) (hrr : row < b.rows) (h0c : 0 ≤ col) (hcc : col < b.cols) :
    (b.guessCell row col f).isRevealed row col = true ∧
    (b.guessCell row col f).isGuessedFilled row col = f := by
  have hin := index_inBounds hlen h0r hrr h0c hcc
  have hin2 : 0 ≤ b.index row col ∧
      b.index row col <
        ((setAt b.cells (b.index row col)
          (if f then getAt b.cells (b.index row col) ||| 0b1000
           else getAt b.cells (b.index row col) &&& 0b0111)).length : Int) := by
    rw [setAt_length]; exact hin
  have hcell : getAt (b.guessCell row col f).cells
      ((b.guessCell row col f).index row col)
      = (((if f then getAt b.cells (b.index row col) ||| 0b1000
           else getAt b.cells (b.index row col) &&& 0b0111) % 256) ||| 0b100) % 256 := by
    rw [index_guessCell, guessCell_cells, getAt_setAt_self _ hin2,
      getAt_setAt_self _ hin]
  constructor
  · rw [isRevealed_eq_testBit, hcell, testBit_mod_byte _ (by norm_num),
      Nat.testBit_or]
    simp [show Nat.testBit 4 2 = true from by decide]
  · rw [isGuessedFilled_eq_testBit, hcell, testBit_mod_byte _ (by norm_num),
      Nat.testBit_or, testBit_mod_byte _ (by norm_num)]
    cases f
    · simp [Nat.testBit_and, show Nat.testBit 7 3 = false from by decide,
        show Nat.testBit 4 3 = false from by decide]
    · simp [Nat.testBit_or, show Nat.testBit 8 3 = true from by decide]

/-- C6 witness: guessing filled on the untouched cell of a 1×1 board reveals
it and records the guess. -/
theorem C6_witness :
    ((Board.mk 1 1 [0] [] [] 0 0).guessCell 0 0 true).isRevealed 0 0 = true ∧
    ((Board.mk 1 1 [0] [] [] 0 0).guessCell 0 0 true).isGuessedFilled 0 0 = true :=
  C6_guessCell_reveals (Board.mk 1 1 [0] [] [] 0 0) 0 0 true
    (by decide) (by decide) (by decide) (by decide) (by decide)

/-- C2: evaluation of the code at the failing input.  On a 1×1 board whose
cell was guessed filled (so `isGuessedFilled` is true), `markCell(0,0,false)`
clears the guessed bit: the `0b101` unmark mask is the three-bit-era
complement of the marked bit and also zeroes bit 3.  The claim says
`isGuessedFilled` is unchanged by `markCell`; here it flips true → false
while the cell stays revealed. -/
theorem C2_markCell_clears_guess :
    ((Board.mk 1 1 [0] [] [] 0 0).guessCell 0 0 true).isGuessedFilled 0 0 = true ∧
    (((Board.mk 1 1 [0] [] [] 0 0).guessCell 0 0 true).markCell 0 0 false).isGuessedFilled 0 0
      = false ∧
    (((Board.mk 1 1 [0] [] [] 0 0).guessCell 0 0 true).markCell 0 0 false).isRevealed 0 0
      = true := by
  decide

/-- C3: evaluation of the code at the failing input.  On a 1×1 board whose
cell was guessed filled, `fillCell(0,0,true)` clears the guessed bit: its
`0b110` mask is the three-bit-era complement of the value bit and also zeroes
bit 3.  The claim says `isGuessedFilled` is unchanged by `fillCell`; here it
flips true → false while the cell stays revealed. -/
theorem C3_fillCell_clears_guess :
    ((Board.mk 1 1 [0] [] [] 0 0).guessCell 0 0 true).isGuessedFilled 0 0 = true ∧
    (((Board.mk 1 1 [0] [] [] 0 0).guessCell 0 0 true).fillCell 0 0 true).isGuessedFilled 0 0
      = false ∧
    (((Board.mk 1 1 [0] [] [] 0 0).guessCell 0 0 true).fillCell 0 0 true).isRevealed 0 0
      = true ∧
    (((Board.mk 1 1 [0] [] [] 0 0).guessCell 0 0 true).fillCell 0 0 true).isFilled 0 0
      = true := by
  decide

/-- C5 counterexample: constructing with `rows = 0` does not fail — the
constructor performs no dimension validation, so `construct 0 5` succeeds
with an empty cell store, contradicting the claimed `InvalidDimension`
failure for `rows ≤ 0`. -/
theorem C5_counterexample :
    (0 : Int) ≤ 0 ∧ Picross.construct 0 5 = some (Board.mk 0 5 [] [] [] 0 0) := by
  decide

/-- C5 amended: construction performs no dimension validation.  It fails only
when `rows * cols < 0` (the `RangeError` of a negative typed-array length);
whenever `rows * cols ≥ 0` — including `rows ≤ 0` or `cols ≤ 0` — it succeeds,
storing the given dimensions and `(rows*cols).toNat` cells with every facet
false. -/
theorem C5_construct_no_validation (rows cols : Int) :
    (construct rows cols = none ↔ rows * cols < 0) ∧
    (∀ b, construct rows cols = some b →
      b.rows = rows ∧ b.cols = cols ∧
      b.cells.length = (rows * cols).toNat ∧
      ∀ r c : Int, b.isFilled r c = false ∧ b.isMarked r c = false ∧
        b.isRevealed r c = false ∧ b.isGuessedFilled r c = false) := by
  constructor
  · unfold construct
    split
    · next h => simpa using h
    · next h => simpa using h
  · intro b hb
    unfold construct at hb
    split at hb
    · exact absurd hb (by simp)
    · have hb' := Option.some_injective _ hb
      subst hb'
      refine ⟨rfl, rfl, by simp, ?_⟩
      intro r c
      refine ⟨?_, ?_, ?_, ?_⟩ <;>
        simp [Board.isFilled, Board.isMarked, Board.isRevealed,
          Board.isGuessedFilled, getAt_replicate_zero]

/-- C5 witness: the amended constructor contract at `rows = 2`, `cols = 3`,
evaluated at cell `(1,2)`. -/
theorem C5_witness :
    (Picross.construct 2 3 = none ↔ (2 * 3 : Int) < 0) ∧
    ((Board.mk 2 3 (List.replicate 6 0) [] [] 0 0).isFilled 1 2 = false ∧
     (Board.mk 2 3 (List.replicate 6 0) [] [] 0 0).isMarked 1 2 = false ∧
     (Board.mk 2 3 (List.replicate 6 0) [] [] 0 0).isRevealed 1 2 = false ∧
     (Board.mk 2 3 (List.replicate 6 0) [] [] 0 0).isGuessedFilled 1 2 = false) :=
  ⟨(C5_construct_no_validation 2 3).1,
   (((C5_construct_no_validation 2 3).2
      (Board.mk 2 3 (List.replicate 6 0) [] [] 0 0) (by decide)).2.2.2) 1 2⟩

/-- C4 counterexample: out-of-range access does not fail.  On a 2×2 board,
`isFilled(2,0)` (row = rows) returns `false` instead of failing, and
`markCell(1,-1,true)` (col = -1) silently wraps: the computed index
`1*2 + (-1) = 1` is cell `(0,1)`, whose marked bit becomes true. -/
theorem C4_counterexample :
    (Board.mk 2 2 (List.replicate 4 0) [] [] 0 0).isFilled 2 0 = false ∧
    ((Board.mk 2 2 (List.replicate 4 0) [] [] 0 0).markCell 1 (-1) true).isMarked 0 1
      = true := by
  decide

theorem oob_at_row_end {b : Board} {col : Int}
    (hlen : b.cells.length = (b.rows * b.cols).toNat)
    (hr : 0 ≤ b.rows) (hc : 0 ≤ col) :
    ¬(0 ≤ b.index b.rows col ∧ b.index b.rows col < (b.cells.length : Int)) := by
  rw [hlen]
  unfold Board.index
  rcases le_or_lt 0 b.cols with h | h
  · have hp : 0 ≤ b.rows * b.cols := mul_nonneg hr h
    omega
  · have hp : b.rows * b.cols ≤ 0 := mul_nonpos_of_nonneg_of_nonpos hr h.le
    omega

/-- C4 amended, part of the statement: the index of `(row, -1)` is the index
of `(row-1, cols-1)` — out-of-range columns wrap instead of being rejected. -/
theorem index_wraps (b : Board) (row : Int) :
    b.index row (-1) = b.index (row - 1) (b.cols - 1) := by
  unfold Board.index; ring

theorem fillCell_index_congr (b : Board) {r1 c1 r2 c2 : Int}
    (h : b.index r1 c1 = b.index r2 c2) (f : Bool) :
    b.fillCell r1 c1 f = b.fillCell r2 c2 f := by
  simp only [Board.fillCell, h]

theorem markCell_index_congr (b : Board) {r1 c1 r2 c2 : Int}
    (h : b.index r1 c1 = b.index r2 c2) (m : Bool) :
    b.markCell r1 c1 m = b.markCell r2 c2 m := by
  simp only [Board.markCell, h]

theorem revealCell_index_congr (b : Board) {r1 c1 r2 c2 : Int}
    (h : b.index r1 c1 = b.index r2 c2) (rv : Bool) :
    b.revealCell r1 c1 rv = b.revealCell r2 c2 rv := by
  simp only [Board.revealCell, h]

theorem guessCell_index_congr (b : Board) {r1 c1 r2 c2 : Int}
    (h : b.index r1 c1 = b.index r2 c2) (g : Bool) :
    b.guessCell r1 c1 g = b.guessCell r2 c2 g := by
  simp only [Board.guessCell, h]
  apply revealCell_index_congr
  exact h

/-- C4 amended: the core performs no bounds checking and never fails.  With
`row = rows` (and `0 ≤ col`) the computed index is past the cell store, so
every accessor returns false and every mutator leaves the board unchanged;
with `col = -1` the computed index wraps to the last cell of the previous
row, so accessors and mutators silently alias cell `(row-1, cols-1)`. -/
theorem C4_no_bounds_check :
    (∀ (b : Board) (col : Int) (f m rv g : Bool),
      b.cells.length = (b.rows * b.cols).toNat → 0 ≤ b.rows → 0 ≤ col →
      (b.isFilled b.rows col = false ∧ b.isMarked b.rows col = false ∧
       b.isRevealed b.rows col = false ∧ b.isGuessedFilled b.rows col = false) ∧
      (b.fillCell b.rows col f = b ∧ b.markCell b.rows col m = b ∧
       b.revealCell b.rows col rv = b ∧ b.guessCell b.rows col g = b)) ∧
    (∀ (b : Board) (row : Int) (f m rv g : Bool),
      (b.isFilled row (-1) = b.isFilled (row - 1) (b.cols - 1) ∧
       b.isMarked row (-1) = b.isMarked (row - 1) (b.cols - 1) ∧
       b.isRevealed row (-1) = b.isRevealed (row - 1) (b.cols - 1) ∧
       b.isGuessedFilled row (-1) = b.isGuessedFilled (row - 1) (b.cols - 1)) ∧
      (b.fillCell row (-1) f = b.fillCell (row - 1) (b.cols - 1) f ∧
       b.markCell row (-1) m = b.markCell (row - 1) (b.cols - 1) m ∧
       b.revealCell row (-1) rv = b.revealCell (row - 1) (b.cols - 1) rv ∧
       b.guessCell row (-1) g = b.guessCell (row - 1) (b.cols - 1) g)) := by
  constructor
  · intro b col f m rv g hlen hr hc
    have hoob := oob_at_row_end hlen hr hc
    have hget : getAt b.cells (b.index b.rows col) = 0 := getAt_oob hoob
    constructor
    · refine ⟨?_, ?_, ?_, ?_⟩ <;>
        simp [Board.isFilled, Board.isMarked, Board.isRevealed,
          Board.isGuessedFilled, hget]
    · refine ⟨?_, ?_, ?_, ?_⟩
      · cases b
        simp_all [Board.fillCell, setAt_oob _ hoob]
      · cases b
        simp_all [Board.markCell, setAt_oob _ hoob]
      · cases b
        simp_all [Board.revealCell, setAt_oob _ hoob]
      · cases b
        simp_all [Board.guessCell, Board.revealCell, setAt_oob _ hoob]
  · intro b row f m rv g
    have hidx := index_wraps b row
    constructor
    · refine ⟨?_, ?_, ?_, ?_⟩ <;>
        simp only [Board.isFilled, Board.isMarked, Board.isRevealed,
          Board.isGuessedFilled, hidx]
    · exact ⟨fillCell_index_congr b hidx f, markCell_index_congr b hidx m,
        revealCell_index_congr b hidx rv, guessCell_index_congr b hidx g⟩

/-- C4 witness: the no-bounds-check contract on a concrete 2×2 board: row 2
reads false and row-2 mutation is a no-op; column -1 aliases the previous
row's last cell. -/
theorem C4_witness :
    (((Board.mk 2 2 (List.replicate 4 0) [] [] 0 0).isFilled 2 0 = false ∧
      (Board.mk 2 2 (List.replicate 4 0) [] [] 0 0).isMarked 2 0 = false ∧
      (Board.mk 2 2 (List.replicate 4 0) [] [] 0 0).isRevealed 2 0 = false ∧
      (Board.mk 2 2 (List.replicate 4 0) [] [] 0 0).isGuessedFilled 2 0 = false) ∧
     ((Board.mk 2 2 (List.replicate 4 0) [] [] 0 0).fillCell 2 0 true
        = Board.mk 2 2 (List.replicate 4 0) [] [] 0 0 ∧
      (Board.mk 2 2 (List.replicate 4 0) [] [] 0 0).markCell 2 0 true
        = Board.mk 2 2 (List.replicate 4 0) [] [] 0 0 ∧
      (Board.mk 2 2 (List.replicate 4 0) [] [] 0 0).revealCell 2 0 true
        = Board.mk 2 2 (List.replicate 4 0) [] [] 0 0 ∧
      (Board.mk 2 2 (List.replicate 4 0) [] [] 0 0).guessCell 2 0 true
        = Board.mk 2 2 (List.replicate 4 0) [] [] 0 0)) ∧
    (((Board.mk 2 2 (List.replicate 4 0) [] [] 0 0).isFilled 1 (-1)
        = (Board.mk 2 2 (List.replicate 4 0) [] [] 0 0).isFilled (1 - 1) (2 - 1) ∧
      (Board.mk 2 2 (List.replicate 4 0) [] [] 0 0).isMarked 1 (-1)
        = (Board.mk 2 2 (List.replicate 4 0) [] [] 0 0).isMarked (1 - 1) (2 - 1) ∧
      (Board.mk 2 2 (List.replicate 4 0) [] [] 0 0).isRevealed 1 (-1)
        = (Board.mk 2 2 (List.replicate 4 0) [] [] 0 0).isRevealed (1 - 1) (2 - 1) ∧
      (Board.mk 2 2 (List.replicate 4 0) [] [] 0 0).isGuessedFilled 1 (-1)
        = (Board.mk 2 2 (List.replicate 4 0) [] [] 0 0).isGuessedFilled (1 - 1) (2 - 1)) ∧
     ((Board.mk 2 2 (List.replicate 4 0) [] [] 0 0).fillCell 1 (-1) true
        = (Board.mk 2 2 (List.replicate 4 0) [] [] 0 0).fillCell (1 - 1) (2 - 1) true ∧
      (Board.mk 2 2 (List.replicate 4 0) [] [] 0 0).markCell 1 (-1) true
        = (Board.mk 2 2 (List.replicate 4 0) [] [] 0 0).markCell (1 - 1) (2 - 1) true ∧
      (Board.mk 2 2 (List.replicate 4 0) [] [] 0 0).revealCell 1 (-1) true
        = (Board.mk 2 2 (List.replicate 4 0) [] [] 0 0).revealCell (1 - 1) (2 - 1) true ∧
      (Board.mk 2 2 (List.replicate 4 0) [] [] 0 0).guessCell 1 (-1) true
        = (Board.mk 2 2 (List.replicate 4 0) [] [] 0 0).guessCell (1 - 1) (2 - 1) true)) :=
  ⟨C4_no_bounds_check.1 (Board.mk 2 2 (List.replicate 4 0) [] [] 0 0) 0
      true true true true (by decide) (by decide) (by decide),
   C4_no_bounds_check.2 (Board.mk 2 2 (List.replicate 4 0) [] [] 0 0) 1
      true true true true⟩

/-! Run-length lemmas for `calculateHints`. -/

theorem processRow_fst (fs : List Bool) (rowSt : Nat × List Nat)
    (colSts : List (Nat × List Nat)) :
    (processRow fs rowSt colSts).1 = fs.foldl hintStep rowSt := by
  induction fs generalizing rowSt colSts with
  | nil => rfl
  | cons f fs ih =>
    cases colSts with
    | nil => simp [processRow, ih]
    | cons s ss => simp [processRow, ih]

theorem processRow_snd (fs : List Bool) :
    ∀ (rowSt : Nat × List Nat) (colSts : List (Nat × List Nat)),
    fs.length = colSts.length →
    (processRow fs rowSt colSts).2 = List.zipWith hintStep colSts fs := by
  induction fs with
  | nil =>
    intro rowSt colSts h
    cases colSts with
    | nil => rfl
    | cons s ss => simp at h
  | cons f fs ih =>
    intro rowSt colSts h
    cases colSts with
    | nil => simp at h
    | cons s ss =>
      simp only [processRow, List.zipWith]
      rw [ih _ ss (by simpa using h)]

theorem sum_flushHint_foldl (fs : List Bool) :
    ∀ (cur : Nat) (acc : List Nat),
    (flushHint (fs.foldl hintStep (cur, acc))).sum = acc.sum + cur + fs.count true := by
  induction fs with
  | nil =>
    intro cur acc
    show (flushHint (cur, acc)).sum = _
    unfold flushHint
    split
    · simp
    · next h =>
      have hc : cur = 0 := by simp at h; omega
      subst hc
      simp
  | cons f fs ih =>
    intro cur acc
    rw [List.foldl_cons]
    cases f
    · have hstep : hintStep (cur, acc) false
          = if cur > 0 then (0, acc ++ [cur]) else (cur, acc) := by
        simp [hintStep]
      rw [hstep]
      by_cases h : cur > 0
      · rw [if_pos h, ih]
        simp [List.count_cons]
      · rw [if_neg h, ih]
        have hc : cur = 0 := by omega
        subst hc
        simp [List.count_cons]
    · have hstep : hintStep (cur, acc) true = (cur + 1, acc) := by
        simp [hintStep]
      rw [hstep, ih]
      simp [List.count_cons]
      omega

theorem processRows_fst (g : List (List Bool)) :
    ∀ sts : List (Nat × List Nat),
    (processRows g sts).1 = g.map (fun row => flushHint (row.foldl hintStep (0, []))) := by
  induction g with
  | nil => intro sts; rfl
  | cons row rest ih =>
    intro sts
    simp [processRows, processRow_fst, ih]

theorem processRows_snd (g : List (List Bool)) :
    ∀ sts : List (Nat × List Nat), (∀ row ∈ g, row.length = sts.length) →
    (processRows g sts).2 = g.foldl (fun s row => List.zipWith hintStep s row) sts := by
  induction g with
  | nil => intro sts _; rfl
  | cons row rest ih =>
    intro sts h
    have hr : row.length = sts.length := h row (by simp)
    have hz : (List.zipWith hintStep sts row).length = sts.length := by
      rw [List.length_zipWith]
      omega
    simp only [processRows, List.foldl_cons]
    rw [processRow_snd row _ sts hr]
    exact ih _ (fun r hrm => by rw [hz]; exact h r (List.mem_cons_of_mem _ hrm))

theorem getD_zipWith (s : List (Nat × List Nat)) (row : List Bool) {k : Nat}
    (hk : k < s.length) (hrow : row.length = s.length) :
    (List.zipWith hintStep s row).getD k (0, []) =
      hintStep (s.getD k (0, [])) (row.getD k false) := by
  have h2 : k < row.length := by omega
  simp [List.getElem?_zipWith, List.getElem?_eq_getElem hk, List.getElem?_eq_getElem h2]

theorem colFoldl_length (g : List (List Bool)) :
    ∀ sts : List (Nat × List Nat), (∀ row ∈ g, row.length = sts.length) →
    (g.foldl (fun s row => List.zipWith hintStep s row) sts).length = sts.length := by
  induction g with
  | nil => intro sts _; rfl
  | cons row rest ih =>
    intro sts h
    have hr : row.length = sts.length := h row (by simp)
    have hz : (List.zipWith hintStep sts row).length = sts.length := by
      rw [List.length_zipWith]
      omega
    simp only [List.foldl_cons]
    rw [ih _ (fun r hrm => by rw [hz]; exact h r (List.mem_cons_of_mem _ hrm)), hz]

theorem colFoldl_getD (k : Nat) (g : List (List Bool)) :
    ∀ sts : List (Nat × List Nat), (∀ row ∈ g, row.length = sts.length) →
    k < sts.length →
    (g.foldl (fun s row => List.zipWith hintStep s row) sts).getD k (0, []) =
      (g.map (fun row => row.getD k false)).foldl hintStep (sts.getD k (0, [])) := by
  induction g with
  | nil => intro sts _ _; rfl
  | cons row rest ih =>
    intro sts h hk
    have hr : row.length = sts.length := h row (by simp)
    have hz : (List.zipWith hintStep sts row).length = sts.length := by
      rw [List.length_zipWith]
      omega
    simp only [List.foldl_cons, List.map_cons]
    rw [ih _ (fun r hrm => by rw [hz]; exact h r (List.mem_cons_of_mem _ hrm))
        (by rw [hz]; exact hk),
      getD_zipWith sts row hk hr]

theorem getD_map_range {α : Type} (f : Nat → α) {n k : Nat} (h : k < n) (d : α) :
    ((List.range n).map f).getD k d = f k := by
  simp [List.getElem?_range h]

theorem getD_map_flush (l : List (Nat × List Nat)) {k : Nat} (hk : k < l.length) :
    (l.map flushHint).getD k [] = flushHint (l.getD k (0, [])) := by
  simp [List.getElem?_eq_getElem hk]

theorem count_true_filter (f : Nat → Bool) (n : Nat) :
    ((List.range n).map f).count true = ((List.range n).filter f).length := by
  rw [List.count_eq_countP, List.countP_map, ← List.countP_eq_length_filter]
  congr 1
  funext x
  simp only [Function.comp_apply]
  cases f x <;> rfl

theorem calculateHints_RowHints (b : Board) :
    (b.calculateHints).RowHints =
      ((List.range b.rows.toNat).map
        (fun (r : Nat) => (List.range b.cols.toNat).map (fun (c : Nat) => b.isFilled (r : Int) (c : Int)))).map
        (fun row => flushHint (row.foldl hintStep (0, []))) := by
  simp only [Board.calculateHints]
  rw [processRows_fst]

theorem grid_row_lengths (b : Board) :
    ∀ row ∈ (List.range b.rows.toNat).map
      (fun (r : Nat) => (List.range b.cols.toNat).map (fun (c : Nat) => b.isFilled (r : Int) (c : Int))),
      row.length = (List.replicate b.cols.toNat ((0 : Nat), ([] : List Nat))).length := by
  intro row hrow
  rcases List.mem_map.mp hrow with ⟨r, _, rfl⟩
  simp

theorem calculateHints_ColHints (b : Board) :
    (b.calculateHints).ColHints =
      (((List.range b.rows.toNat).map
        (fun (r : Nat) => (List.range b.cols.toNat).map (fun (c : Nat) => b.isFilled (r : Int) (c : Int)))).foldl
          (fun s row => List.zipWith hintStep s row)
          (List.replicate b.cols.toNat (0, []))).map flushHint := by
  simp only [Board.calculateHints]
  rw [processRows_snd _ _ (grid_row_lengths b)]

/-- C1: after `calculateHints`, the sum of the hint entries of row `r` equals
the number of filled cells of row `r`, and symmetrically for every column:
each filled cell is counted by exactly one run, and each run is pushed exactly
once (at the next empty cell or at the flush). -/
theorem C1_hint_sums (b : Board) (r c : Int)
    (h0r : 0 ≤ r) (hr : r < b.rows) (h0c : 0 ≤ c) (hc : c < b.cols) :
    (b.calculateHints.getRowHints r).map List.sum = some (filledInRow b r) ∧
    (b.calculateHints.getColHints c).map List.sum = some (filledInCol b c) := by
  have hR : b.calculateHints.RowHints.length = b.rows.toNat := by
    rw [calculateHints_RowHints]
    simp
  have hC : b.calculateHints.ColHints.length = b.cols.toNat := by
    rw [calculateHints_ColHints, List.length_map,
      colFoldl_length _ _ (grid_row_lengths b)]
    simp
  constructor
  · have hcond : 0 ≤ r ∧ r < (b.calculateHints.RowHints.length : Int) := by
      rw [hR]
      omega
    rw [Board.getRowHints, if_pos hcond, Option.map_some']
    congr 1
    rw [calculateHints_RowHints, List.map_map]
    have hrn : r.toNat < b.rows.toNat := by omega
    rw [getD_map_range _ hrn]
    simp only [Function.comp_apply]
    rw [sum_flushHint_foldl, count_true_filter]
    unfold filledInRow
    rw [Int.toNat_of_nonneg h0r]
    simp
  · have hcond : 0 ≤ c ∧ c < (b.calculateHints.ColHints.length : Int) := by
      rw [hC]
      omega
    rw [Board.getColHints, if_pos hcond, Option.map_some']
    congr 1
    rw [calculateHints_ColHints]
    have hcn : c.toNat < b.cols.toNat := by omega
    rw [getD_map_flush _ (by rw [colFoldl_length _ _ (grid_row_lengths b), List.length_replicate]; omega)]
    rw [colFoldl_getD c.toNat _ _ (grid_row_lengths b) (by rw [List.length_replicate]; omega)]
    have hinit : (List.replicate b.cols.toNat ((0 : Nat), ([] : List Nat))).getD c.toNat (0, [])
        = (0, []) := by
      simp [List.getElem?_replicate_of_lt hcn]
    rw [hinit, List.map_map]
    have hfun : ∀ x ∈ List.range b.rows.toNat,
        ((fun row => row.getD c.toNat false) ∘
          (fun (r' : Nat) => (List.range b.cols.toNat).map
            (fun (c' : Nat) => b.isFilled (r' : Int) (c' : Int)))) x
          = b.isFilled (x : Int) ((c.toNat : Nat) : Int) := by
      intro x _
      simp only [Function.comp_apply]
      exact getD_map_range _ hcn _
    rw [List.map_congr_left hfun]
    rw [sum_flushHint_foldl, count_true_filter]
    unfold filledInCol
    rw [Int.toNat_of_nonneg h0c]
    simp

/-- C1 witness: the run-length accounting evaluated on the 3×3 scenario board
at row 0 and column 2. -/
theorem C1_witness :
    (((((Board.mk 3 3 (List.replicate 9 0) [] [] 0 0).fillCell 0 0
        true).fillCell 0 1 true).fillCell 1 2
        true).calculateHints.getRowHints 0).map List.sum
      = some (filledInRow ((((Board.mk 3 3 (List.replicate 9 0) [] [] 0 0).fillCell 0 0
        true).fillCell 0 1 true).fillCell 1 2 true) 0) ∧
    (((((Board.mk 3 3 (List.replicate 9 0) [] [] 0 0).fillCell 0 0
        true).fillCell 0 1 true).fillCell 1 2
        true).calculateHints.getColHints 2).map List.sum
      = some (filledInCol ((((Board.mk 3 3 (List.replicate 9 0) [] [] 0 0).fillCell 0 0
        true).fillCell 0 1 true).fillCell 1 2 true) 2) :=
  C1_hint_sums ((((Board.mk 3 3 (List.replicate 9 0) [] [] 0 0).fillCell 0 0
      true).fillCell 0 1 true).fillCell 1 2 true) 0 2
    (by decide) (by decide) (by decide) (by decide)

theorem calculateHints_cells (b : Board) : (b.calculateHints).cells = b.cells := rfl

theorem calculateHints_longestRow (b : Board) :
    (b.calculateHints).getLongestRowHintLength = longestLen (b.calculateHints).RowHints := rfl

theorem calculateHints_longestCol (b : Board) :
    (b.calculateHints).getLongestColHintLength = longestLen (b.calculateHints).ColHints := rfl

/-- C8: `calculateHints` is idempotent absent intervening true-value mutation
(it does not touch the cell bytes, so a second call recomputes the same hint
tables and longest lengths), and it reads only the true-value facet: boards of
equal dimensions whose `isFilled` values agree everywhere get identical hint
results, whatever their marked/revealed/guessed bits. -/
theorem C8_calculateHints_idempotent_pure :
    (∀ b : Board,
      (b.calculateHints.calculateHints).RowHints = b.calculateHints.RowHints ∧
      (b.calculateHints.calculateHints).ColHints = b.calculateHints.ColHints ∧
      (b.calculateHints.calculateHints).getLongestRowHintLength
        = b.calculateHints.getLongestRowHintLength ∧
      (b.calculateHints.calculateHints).getLongestColHintLength
        = b.calculateHints.getLongestColHintLength) ∧
    (∀ b1 b2 : Board, b1.rows = b2.rows → b1.cols = b2.cols →
      (∀ r c : Int, b1.isFilled r c = b2.isFilled r c) →
      b1.calculateHints.RowHints = b2.calculateHints.RowHints ∧
      b1.calculateHints.ColHints = b2.calculateHints.ColHints ∧
      b1.calculateHints.getLongestRowHintLength = b2.calculateHints.getLongestRowHintLength ∧
      b1.calculateHints.getLongestColHintLength = b2.calculateHints.getLongestColHintLength) := by
  constructor
  · intro b
    exact ⟨rfl, rfl, rfl, rfl⟩
  · intro b1 b2 hrows hcols hfill
    have hgrid : (List.range b1.rows.toNat).map
        (fun (r : Nat) => (List.range b1.cols.toNat).map
          (fun (c : Nat) => b1.isFilled (r : Int) (c : Int)))
        = (List.range b2.rows.toNat).map
        (fun (r : Nat) => (List.range b2.cols.toNat).map
          (fun (c : Nat) => b2.isFilled (r : Int) (c : Int))) := by
      rw [hrows, hcols]
      exact List.map_congr_left
        (fun r _ => List.map_congr_left (fun c _ => hfill r c))
    have hrh : b1.calculateHints.RowHints = b2.calculateHints.RowHints := by
      rw [calculateHints_RowHints, calculateHints_RowHints, hgrid]
    have hch : b1.calculateHints.ColHints = b2.calculateHints.ColHints := by
      rw [calculateHints_ColHints, calculateHints_ColHints, hgrid, hcols]
    refine ⟨hrh, hch, ?_, ?_⟩
    · rw [calculateHints_longestRow, calculateHints_longestRow, hrh]
    · rw [calculateHints_longestCol, calculateHints_longestCol, hch]

/-- C8 witness: idempotence on the 3×3 scenario board, and purity on two 1×1
boards that differ only in the marked bit (cells `[2]` versus `[0]`). -/
theorem C8_witness :
    (((Board.mk 3 3 (List.replicate 9 0) [] [] 0 0).calculateHints.calculateHints).RowHints
        = (Board.mk 3 3 (List.replicate 9 0) [] [] 0 0).calculateHints.RowHints ∧
      ((Board.mk 3 3 (List.replicate 9 0) [] [] 0 0).calculateHints.calculateHints).ColHints
        = (Board.mk 3 3 (List.replicate 9 0) [] [] 0 0).calculateHints.ColHints ∧
      ((Board.mk 3 3 (List.replicate 9 0) [] [] 0
        0).calculateHints.calculateHints).getLongestRowHintLength
        = (Board.mk 3 3 (List.replicate 9 0) [] [] 0 0).calculateHints.getLongestRowHintLength ∧
      ((Board.mk 3 3 (List.replicate 9 0) [] [] 0
        0).calculateHints.calculateHints).getLongestColHintLength
        = (Board.mk 3 3 (List.replicate 9 0) [] [] 0 0).calculateHints.getLongestColHintLength) ∧
    ((Board.mk 1 1 [2] [] [] 0 0).calculateHints.RowHints
        = (Board.mk 1 1 [0] [] [] 0 0).calculateHints.RowHints ∧
      (Board.mk 1 1 [2] [] [] 0 0).calculateHints.ColHints
        = (Board.mk 1 1 [0] [] [] 0 0).calculateHints.ColHints ∧
      (Board.mk 1 1 [2] [] [] 0 0).calculateHints.getLongestRowHintLength
        = (Board.mk 1 1 [0] [] [] 0 0).calculateHints.getLongestRowHintLength ∧
      (Board.mk 1 1 [2] [] [] 0 0).calculateHints.getLongestColHintLength
        = (Board.mk 1 1 [0] [] [] 0 0).calculateHints.getLongestColHintLength) :=
  ⟨C8_calculateHints_idempotent_pure.1 (Board.mk 3 3 (List.replicate 9 0) [] [] 0 0),
   C8_calculateHints_idempotent_pure.2 (Board.mk 1 1 [2] [] [] 0 0)
     (Board.mk 1 1 [0] [] [] 0 0) rfl rfl
     (by
       intro r c
       simp only [Board.isFilled, Board.index, getAt]
       split
       · next h =>
         have ht : (r * (1 : Int) + c).toNat = 0 := by
           simp only [List.length_cons, List.length_nil] at h
           omega
         split
         · rw [ht]
           decide
         · next h2 =>
           exact absurd (by simpa using h) (by simpa using h2)
       · next h =>
         split
         · next h2 =>
           exact absurd (by simpa using h2) (by simpa using h)
         · rfl)⟩

/-! Reachability invariant: an unrevealed cell is never guessed-filled. -/

/-- A cell byte respects the guess discipline: if bit 2 (revealed) is clear,
bit 3 (guessed filled) is clear too. -/
def CellInv (v : Nat) : Prop := v.testBit 2 = false → v.testBit 3 = false

/-- Every cell byte of the board respects the guess discipline (positions past
the store read as 0, which trivially satisfies it). -/
def BoardInv (b : Board) : Prop := ∀ k : Nat, CellInv (b.cells.getD k 0)

theorem getD_setAt (l : List Nat) (i : Int) (v : Nat) (k : Nat) :
    (setAt l i v).getD k 0 =
      if 0 ≤ i ∧ i < (l.length : Int) ∧ i.toNat = k then v % 256 else l.getD k 0 := by
  unfold setAt
  split
  · next hin =>
    by_cases hik : i.toNat = k
    · subst hik
      rw [if_pos ⟨hin.1, hin.2, rfl⟩]
      have hk : i.toNat < l.length := by omega
      simp [List.getElem?_set_self, hk]
    · rw [if_neg (by tauto)]
      simp [List.getElem?_set_ne hik]
  · next hin =>
    rw [if_neg (by tauto)]

theorem cellInv_getAt {l : List Nat} (h : ∀ k : Nat, CellInv (l.getD k 0)) (i : Int) :
    CellInv (getAt l i) := by
  unfold getAt
  split
  · exact h _
  · intro _
    simp

theorem cellInv_fill_val (v : Nat) (f : Bool) :
    CellInv (((v &&& 0b110) ||| (if f then 1 else 0)) % 256) := by
  intro _
  rw [testBit_mod_byte _ (by norm_num), Nat.testBit_or, Nat.testBit_and]
  cases f <;>
    simp [show Nat.testBit 0b110 3 = false from by decide,
      show Nat.testBit 1 3 = false from by decide,
      show Nat.testBit 0 3 = false from by decide]

theorem cellInv_mark_val (v : Nat) (m : Bool) (hv : CellInv v) :
    CellInv ((if m then v ||| 0b010 else v &&& 0b101) % 256) := by
  cases m
  · intro _
    rw [if_neg (by simp)] at *
    rw [testBit_mod_byte _ (by norm_num), Nat.testBit_and]
    simp [show Nat.testBit 0b101 3 = false from by decide]
  · intro h
    rw [if_pos rfl] at *
    rw [testBit_mod_byte _ (by norm_num)] at h ⊢
    rw [Nat.testBit_or] at h ⊢
    simp only [show Nat.testBit 0b010 2 = false from by decide, Bool.or_false] at h
    simp [show Nat.testBit 0b010 3 = false from by decide, hv h]

theorem cellInv_reveal_val (v : Nat) (rv : Bool) (_hv : CellInv v) :
    CellInv ((if rv then v ||| 0b100 else v &&& 0b011) % 256) := by
  cases rv
  · intro _
    rw [if_neg (by simp)]
    rw [testBit_mod_byte _ (by norm_num), Nat.testBit_and]
    simp [show Nat.testBit 0b011 3 = false from by decide]
  · intro h
    rw [if_pos rfl] at h
    rw [testBit_mod_byte _ (by norm_num), Nat.testBit_or] at h
    simp [show Nat.testBit 0b100 2 = true from by decide] at h

theorem cellInv_or_four (v : Nat) : CellInv ((v ||| 0b100) % 256) := by
  intro h
  rw [testBit_mod_byte _ (by norm_num), Nat.testBit_or] at h
  simp [show Nat.testBit 0b100 2 = true from by decide] at h

theorem boardInv_setAt {l : List Nat} (i : Int) (v : Nat)
    (hl : ∀ k : Nat, CellInv (l.getD k 0)) (hv : CellInv (v % 256)) :
    ∀ k : Nat, CellInv ((setAt l i v).getD k 0) := by
  intro k
  rw [getD_setAt]
  split
  · exact hv
  · exact hl k

theorem cellInv_double_set (l : List Nat) (i : Int) (w1 : Nat)
    (hl : ∀ k : Nat, CellInv (l.getD k 0)) :
    ∀ k : Nat,
      CellInv ((setAt (setAt l i w1) i (getAt (setAt l i w1) i ||| 0b100)).getD k 0) := by
  intro k
  rw [getD_setAt]
  split
  · exact cellInv_or_four _
  · next hcond =>
    rw [setAt_length] at hcond
    rw [getD_setAt, if_neg hcond]
    exact hl k

theorem boardInv_applyOp (b : Board) (op : Op) (h : BoardInv b) :
    BoardInv (applyOp b op) := by
  cases op with
  | fill row col f =>
    intro k
    rw [show (applyOp b (Op.fill row col f)).cells = (b.fillCell row col f).cells from rfl,
      fillCell_cells]
    exact boardInv_setAt _ _ h (cellInv_fill_val _ f) k
  | mark row col m =>
    intro k
    rw [show (applyOp b (Op.mark row col m)).cells = (b.markCell row col m).cells from rfl,
      markCell_cells]
    have : CellInv (getAt b.cells (b.index row col)) := cellInv_getAt h _
    exact boardInv_setAt _ _ h (by
      rcases m with _ | _
      · exact cellInv_mark_val _ false this
      · exact cellInv_mark_val _ true this) k
  | reveal row col rv =>
    intro k
    rw [show (applyOp b (Op.reveal row col rv)).cells = (b.revealCell row col rv).cells from rfl,
      revealCell_cells]
    have : CellInv (getAt b.cells (b.index row col)) := cellInv_getAt h _
    exact boardInv_setAt _ _ h (by
      rcases rv with _ | _
      · exact cellInv_reveal_val _ false this
      · exact cellInv_reveal_val _ true this) k
  | guess row col f =>
    intro k
    rw [show (applyOp b (Op.guess row col f)).cells = (b.guessCell row col f).cells from rfl,
      guessCell_cells]
    exact cellInv_double_set b.cells (b.index row col) _ h k
  | hints =>
    intro k
    rw [show (applyOp b Op.hints).cells = b.cells from rfl]
    exact h k

theorem boardInv_foldl (ops : List Op) :
    ∀ b : Board, BoardInv b → BoardInv (ops.foldl applyOp b) := by
  induction ops with
  | nil => intro b h; exact h
  | cons op rest ih =>
    intro b h
    exact ih _ (boardInv_applyOp b op h)

theorem boardInv_construct {rows cols : Int} {b0 : Board}
    (h : construct rows cols = some b0) : BoardInv b0 := by
  unfold construct at h
  split at h
  · exact absurd h (by simp)
  · have hb := Option.some_injective _ h
    subst hb
    intro k
    have hz : (List.replicate (rows * cols).toNat (0 : Nat)).getD k 0 = 0 := by
      rw [List.getD_eq_getElem?_getD, List.getElem?_replicate]
      split <;> rfl
    rw [hz]
    intro _
    simp

/-- C10: in every state reachable from construction by a sequence of in-range
operations, a cell that is not revealed is not guessed-filled: the guessed bit
is only ever set by `guessCell`, which immediately sets the revealed bit, and
every write that clears the revealed bit clears the guessed bit too. -/
theorem C10_unrevealed_not_guessed (rows cols : Int) (b0 : Board) (ops : List Op)
    (hc : construct rows cols = some b0)
    (_hops : ∀ op ∈ ops, op.inRange rows cols) (r c : Int)
    (hrev : (ops.foldl applyOp b0).isRevealed r c = false) :
    (ops.foldl applyOp b0).isGuessedFilled r c = false := by
  have hinv : BoardInv (ops.foldl applyOp b0) :=
    boardInv_foldl ops b0 (boardInv_construct hc)
  have hcell : CellInv (getAt (ops.foldl applyOp b0).cells
      ((ops.foldl applyOp b0).index r c)) :=
    cellInv_getAt hinv _
  rw [isRevealed_eq_testBit] at hrev
  rw [isGuessedFilled_eq_testBit]
  exact hcell hrev

/-- C10 witness: on a 1×1 board, after guessing the cell filled and then
un-revealing it, the cell is unrevealed and its guessed bit is cleared. -/
theorem C10_witness :
    (([Op.guess 0 0 true, Op.reveal 0 0 false].foldl applyOp
      (Board.mk 1 1 (List.replicate 1 0) [] [] 0 0)).isGuessedFilled 0 0 = false) :=
  C10_unrevealed_not_guessed 1 1 (Board.mk 1 1 (List.replicate 1 0) [] [] 0 0)
    [Op.guess 0 0 true, Op.reveal 0 0 false] (by decide)
    (by
      intro op hop
      simp only [List.mem_cons, List.not_mem_nil, or_false] at hop
      rcases hop with rfl | rfl <;> exact ⟨by decide, by decide, by decide, by decide⟩)
    0 0 (by decide)

theorem foldl_hintStep_false (fs : List Bool) :
    ∀ acc : List Nat, (∀ f ∈ fs, f = false) → fs.foldl hintStep (0, acc) = (0, acc) := by
  induction fs with
  | nil => intro acc _; rfl
  | cons f fs ih =>
    intro acc h
    have hf : f = false := h f (by simp)
    subst hf
    rw [List.foldl_cons]
    have hstep : hintStep (0, acc) false = (0, acc) := by simp [hintStep]
    rw [hstep]
    exact ih acc (fun g hg => h g (List.mem_cons_of_mem _ hg))

theorem getRowHints_calculateHints (b : Board) {r : Int} (h0r : 0 ≤ r) (hr : r < b.rows) :
    b.calculateHints.getRowHints r
      = some (flushHint (((List.range b.cols.toNat).map
          (fun (c : Nat) => b.isFilled ((r.toNat : Nat) : Int) (c : Int))).foldl
            hintStep (0, []))) := by
  have hR : b.calculateHints.RowHints.length = b.rows.toNat := by
    rw [calculateHints_RowHints]
    simp
  have hcond : 0 ≤ r ∧ r < (b.calculateHints.RowHints.length : Int) := by
    rw [hR]
    omega
  rw [Board.getRowHints, if_pos hcond]
  congr 1
  rw [calculateHints_RowHints, List.map_map]
  have hrn : r.toNat < b.rows.toNat := by omega
  rw [getD_map_range _ hrn]
  simp only [Function.comp_apply]

theorem getColHints_calculateHints (b : Board) {c : Int} (h0c : 0 ≤ c) (hc : c < b.cols) :
    b.calculateHints.getColHints c
      = some (flushHint (((List.range b.rows.toNat).map
          (fun (r : Nat) => b.isFilled (r : Int) ((c.toNat : Nat) : Int))).foldl
            hintStep (0, []))) := by
  have hC : b.calculateHints.ColHints.length = b.cols.toNat := by
    rw [calculateHints_ColHints, List.length_map,
      colFoldl_length _ _ (grid_row_lengths b)]
    simp
  have hcond : 0 ≤ c ∧ c < (b.calculateHints.ColHints.length : Int) := by
    rw [hC]
    omega
  rw [Board.getColHints, if_pos hcond]
  congr 1
  rw [calculateHints_ColHints]
  have hcn : c.toNat < b.cols.toNat := by omega
  rw [getD_map_flush _ (by rw [colFoldl_length _ _ (grid_row_lengths b), List.length_replicate]; omega)]
  rw [colFoldl_getD c.toNat _ _ (grid_row_lengths b) (by rw [List.length_replicate]; omega)]
  have hinit : (List.replicate b.cols.toNat ((0 : Nat), ([] : List Nat))).getD c.toNat (0, [])
      = (0, []) := by
    simp [List.getElem?_replicate_of_lt hcn]
  rw [hinit, List.map_map]
  have hfun : ∀ x ∈ List.range b.rows.toNat,
      ((fun row => row.getD c.toNat false) ∘
        (fun (r' : Nat) => (List.range b.cols.toNat).map
          (fun (c' : Nat) => b.isFilled (r' : Int) (c' : Int)))) x
        = b.isFilled (x : Int) ((c.toNat : Nat) : Int) := by
    intro x _
    simp only [Function.comp_apply]
    exact getD_map_range _ hcn _
  rw [List.map_congr_left hfun]

/-- C9: the concrete 3×3 scenario: after filling (0,0), (0,1), (1,2) and
computing hints, the row hints are [2], [1], [] (an empty row yields an empty
sequence, not [0]), the column hints are [1], [1], [1], and both longest hint
lengths are 1; and in general any in-range row or column with no filled cells
yields the empty hint sequence, never a sequence containing zero. -/
theorem C9_scenario :
    (Picross.construct 3 3 = some (Board.mk 3 3 (List.replicate 9 0) [] [] 0 0) ∧
     ((((Board.mk 3 3 (List.replicate 9 0) [] [] 0 0).fillCell 0 0
         true).fillCell 0 1 true).fillCell 1 2 true).calculateHints.getRowHints 0
       = some [2] ∧
     ((((Board.mk 3 3 (List.replicate 9 0) [] [] 0 0).fillCell 0 0
         true).fillCell 0 1 true).fillCell 1 2 true).calculateHints.getRowHints 1
       = some [1] ∧
     ((((Board.mk 3 3 (List.replicate 9 0) [] [] 0 0).fillCell 0 0
         true).fillCell 0 1 true).fillCell 1 2 true).calculateHints.getRowHints 2
       = some [] ∧
     ((((Board.mk 3 3 (List.replicate 9 0) [] [] 0 0).fillCell 0 0
         true).fillCell 0 1 true).fillCell 1 2 true).calculateHints.getColHints 0
       = some [1] ∧
     ((((Board.mk 3 3 (List.replicate 9 0) [] [] 0 0).fillCell 0 0
         true).fillCell 0 1 true).fillCell 1 2 true).calculateHints.getColHints 1
       = some [1] ∧
     ((((Board.mk 3 3 (List.replicate 9 0) [] [] 0 0).fillCell 0 0
         true).fillCell 0 1 true).fillCell 1 2 true).calculateHints.getColHints 2
       = some [1] ∧
     ((((Board.mk 3 3 (List.replicate 9 0) [] [] 0 0).fillCell 0 0
         true).fillCell 0 1 true).fillCell 1 2
         true).calculateHints.getLongestRowHintLength = 1 ∧
     ((((Board.mk 3 3 (List.replicate 9 0) [] [] 0 0).fillCell 0 0
         true).fillCell 0 1 true).fillCell 1 2
         true).calculateHints.getLongestColHintLength = 1) ∧
    (∀ (b : Board) (r : Int), 0 ≤ r → r < b.rows → filledInRow b r = 0 →
      b.calculateHints.getRowHints r = some []) ∧
    (∀ (b : Board) (c : Int), 0 ≤ c → c < b.cols → filledInCol b c = 0 →
      b.calculateHints.getColHints c = some []) := by
  refine ⟨by decide, ?_, ?_⟩
  · intro b r h0r hr hempty
    rw [getRowHints_calculateHints b h0r hr]
    congr 1
    have hall : ∀ f ∈ (List.range b.cols.toNat).map
        (fun (c : Nat) => b.isFilled ((r.toNat : Nat) : Int) (c : Int)), f = false := by
      intro f hf
      rcases List.mem_map.mp hf with ⟨cc, hcc, rfl⟩
      have hcast : ((r.toNat : Nat) : Int) = r := Int.toNat_of_nonneg h0r
      rw [hcast]
      unfold filledInRow at hempty
      rw [List.length_eq_zero, List.filter_eq_nil_iff] at hempty
      simpa using hempty cc hcc
    rw [foldl_hintStep_false _ [] hall]
    rfl
  · intro b c h0c hc hempty
    rw [getColHints_calculateHints b h0c hc]
    congr 1
    have hall : ∀ f ∈ (List.range b.rows.toNat).map
        (fun (r : Nat) => b.isFilled (r : Int) ((c.toNat : Nat) : Int)), f = false := by
      intro f hf
      rcases List.mem_map.mp hf with ⟨rr, hrr, rfl⟩
      have hcast : ((c.toNat : Nat) : Int) = c := Int.toNat_of_nonneg h0c
      rw [hcast]
      unfold filledInCol at hempty
      rw [List.length_eq_zero, List.filter_eq_nil_iff] at hempty
      simpa using hempty rr hrr
    rw [foldl_hintStep_false _ [] hall]
    rfl

/-- C9 witness: the general empty-line parts applied to an untouched 2×2
board at row 1 and column 1 (no filled cells, so both hint sequences are
empty). -/
theorem C9_witness :
    (Board.mk 2 2 (List.replicate 4 0) [] [] 0 0).calculateHints.getRowHints 1 = some [] ∧
    (Board.mk 2 2 (List.replicate 4 0) [] [] 0 0).calculateHints.getColHints 1 = some [] :=
  ⟨C9_scenario.2.1 (Board.mk 2 2 (List.replicate 4 0) [] [] 0 0) 1
     (by decide) (by decide) (by decide),
   C9_scenario.2.2 (Board.mk 2 2 (List.replicate 4 0) [] [] 0 0) 1
     (by decide) (by decide) (by decide)⟩

end Picross
